import Mathlib

/-!
Verification of the typed-value ABI model, binary descriptor decoding,
registry build and argument-binding logic of
`aptos/scripts/utils/aptos_brownie.py`.

Byte streams are modelled as `List Nat` (one entry per byte).  Identifier
strings carried inside the binary format (function names, argument names,
module names) are modelled as their byte lists; caller-facing strings
(struct-tag text, file names) as `List Char` or `String`.
-/

namespace AptosBrownie

/-- Modelled from the spec: the SDK serializer's uleb128 encoding of an
unsigned integer (base-128 little-endian groups, high bit = continuation). -/
def ulebEncode (n : Nat) : List Nat :=
  if n < 128 then [n]
  else (n % 128 + 128) :: ulebEncode (n / 128)
termination_by n
decreasing_by
  exact Nat.div_lt_self (by omega) (by omega)

/-- Modelled from the spec: the SDK deserializer's uleb128 decoder; returns
the value and the remaining stream, `none` on a truncated stream. -/
def ulebDecode : List Nat → Option (Nat × List Nat)
  | [] => none
  | b :: rest =>
    if b < 128 then some (b, rest)
    else
      match ulebDecode rest with
      | some (v, r) => some (b % 128 + 128 * v, r)
      | none => none

/-- Modelled from the spec: fixed-width little-endian packing of an unsigned
integer into exactly `k` bytes. -/
def leBytes : Nat → Nat → List Nat
  | 0, _ => []
  | k + 1, n => n % 256 :: leBytes k (n / 256)

/-- Modelled from the spec: fixed-width big-endian packing of an unsigned
integer into exactly `k` bytes (used for left-zero-padded addresses). -/
def beBytes : Nat → Nat → List Nat
  | 0, _ => []
  | k + 1, n => beBytes k (n / 256) ++ [n % 256]

/-- Modelled from the spec: the serializer's length-prefixed string encoding,
uleb128 byte length followed by the raw bytes. -/
def strEncode (s : List Nat) : List Nat :=
  ulebEncode s.length ++ s

/-- Modelled from the spec: `Deserializer.u8`, one byte off the stream. -/
def desU8 : List Nat → Option (Nat × List Nat)
  | [] => none
  | b :: rest => some (b, rest)

/-- Modelled from the spec: reading exactly `k` raw bytes off the stream
(`AccountAddress.deserialize` reads 32 of them). -/
def desBytes (k : Nat) (bs : List Nat) : Option (List Nat × List Nat) :=
  if k ≤ bs.length then some (bs.take k, bs.drop k) else none

/-- Modelled from the spec: `Deserializer.str`, a uleb128 length then that
many bytes; `none` when the stream is too short. -/
def desStr (bs : List Nat) : Option (List Nat × List Nat) := do
  let (n, r) ← ulebDecode bs
  if n ≤ r.length then some (r.take n, r.drop n) else none

/-- Decoding exactly `n` records with the element decoder `f`. -/
def desN (f : List Nat → Option (α × List Nat)) :
    Nat → List Nat → Option (List α × List Nat)
  | 0, bs => some ([], bs)
  | n + 1, bs => do
    let (x, r) ← f bs
    let (xs, r2) ← desN f n r
    pure (x :: xs, r2)

/-- Modelled from the spec: `Deserializer.sequence`, a uleb128 count followed
by that many records. -/
def desSeq (f : List Nat → Option (α × List Nat)) (bs : List Nat) :
    Option (List α × List Nat) := do
  let (n, r) ← ulebDecode bs
  desN f n r

/-- Left-to-right effectful map over `Option`, failing when any element
fails (a Python comprehension whose element constructor may raise). -/
def mapOpt (f : α → Option β) : List α → Option (List β)
  | [] => some []
  | x :: xs => do
    let y ← f x
    let ys ← mapOpt f xs
    pure (y :: ys)

/-- The universe of raw caller-supplied Python values the binder receives:
booleans, integers, strings, lists and dicts (a dict modelled by its key
list, which is what iterating it yields). -/
inductive Raw
  | bool (b : Bool)
  | int (n : Int)
  | str (s : String)
  | list (xs : List Raw)
  | dict (keys : List Raw)

/-- Modelled from the spec: the Python `list(x)` builtin over `Raw`.
Iterables yield their element list (a string its one-character strings, a
dict its keys); on a non-iterable, `list(x)` itself raises (`none`). -/
def pyList : Raw → Option (List Raw)
  | .bool _ => none
  | .int _ => none
  | .str s => some (s.data.map fun c => Raw.str (String.mk [c]))
  | .list xs => some xs
  | .dict ks => some ks

/-- Modelled from the spec: Python `isinstance(x, list)` over `Raw`. -/
def isinstanceList : Raw → Bool
  | .list _ => true
  | _ => false

/-- The `assert isinstance(list(value), list)` guard shared by every
`VectorTag` subclass constructor and by `submit_bcs_transaction`'s
`ty_args` check: `none` when `list(value)` raises, otherwise the
`isinstance` verdict. -/
def seqAssert (v : Raw) : Option Bool :=
  (pyList v).map fun l => isinstanceList (Raw.list l)

/-- A parsed qualified struct-type name `address::module::name`.
Modelled from the spec: the SDK's `StructTag`; generic type arguments
(the optional angle-bracket suffix) are not carried. -/
structure StructT where
  address : List Char
  module : List Char
  name : List Char
deriving DecidableEq, Repr

/-- Splits a character list on each occurrence of the two-character
separator `::` (the qualified-name separator). -/
def splitQual : List Char → List (List Char)
  | [] => [[]]
  | ':' :: ':' :: rest => [] :: splitQual rest
  | c :: rest =>
    match splitQual rest with
    | [] => [[c]]
    | p :: ps => (c :: p) :: ps

/-- Modelled from the spec: `StructTag.from_str` on a raw value — the value
must be a string of the form `address::module::name` with three nonempty
components; anything else raises (`none`). -/
def structFromStr : Raw → Option StructT
  | .str s =>
    match splitQual s.data with
    | [a, m, n] =>
      if a ≠ [] ∧ m ≠ [] ∧ n ≠ [] then some ⟨a, m, n⟩ else none
    | _ => none
  | _ => none

/-- The numeric value of one hexadecimal digit. -/
def hexDigit : Char → Option Nat
  | c =>
    if '0' ≤ c ∧ c ≤ '9' then some (c.toNat - '0'.toNat)
    else if 'a' ≤ c ∧ c ≤ 'f' then some (c.toNat - 'a'.toNat + 10)
    else if 'A' ≤ c ∧ c ≤ 'F' then some (c.toNat - 'A'.toNat + 10)
    else none

/-- The value of a nonempty all-hex character list, `none` otherwise. -/
def hexValue : List Char → Option Nat :=
  fun cs =>
    match cs with
    | [] => none
    | _ =>
      cs.foldl (fun acc c =>
        match acc, hexDigit c with
        | some v, some d => some (16 * v + d)
        | _, _ => none) (some 0)

/-- The value of a nonempty all-decimal character list, `none` otherwise. -/
def decValue : List Char → Option Nat :=
  fun cs =>
    match cs with
    | [] => none
    | _ =>
      cs.foldl (fun acc c =>
        match acc, (if '0' ≤ c ∧ c ≤ '9' then some (c.toNat - '0'.toNat) else none) with
        | some v, some d => some (10 * v + d)
        | _, _ => none) (some 0)

/-- Modelled from the spec: an unsigned integer accepted by a fixed-width
tag constructor — a native integer, or a decimal / `0x`-hex string — rejected
when negative or ≥ 2^bits. -/
def uintNew (bits : Nat) : Raw → Option Nat
  | .int n => if 0 ≤ n ∧ n < (2 ^ bits : Nat) then some n.toNat else none
  | .str s =>
    match s.data with
    | '0' :: 'x' :: rest => (hexValue rest).bind fun v => if v < 2 ^ bits then some v else none
    | cs => (decValue cs).bind fun v => if v < 2 ^ bits then some v else none
  | _ => none

/-- Modelled from the spec: `BoolTag`'s accepted raw input — a boolean. -/
def boolNew : Raw → Option Bool
  | .bool b => some b
  | _ => none

/-- Modelled from the spec: `AccountAddressTag`'s accepted raw input — a hex
string with optional `0x` prefix of at most 64 digits, left-zero-padded to a
fixed 32-byte address. -/
def addrNew : Raw → Option (List Nat)
  | .str s =>
    let cs :=
      match s.data with
      | '0' :: 'x' :: rest => rest
      | other => other
    if cs.length ≤ 64 then (hexValue cs).map (beBytes 32) else none
  | _ => none

/-- The element classes a `VectorTag` subclass is specialised to
(`VectorBoolTag` … `VectorStructTag`; no vector-of-vector subclass exists). -/
inductive VecClass
  | vBool | vU8 | vU64 | vU128 | vAddr | vStruct
deriving DecidableEq, Repr

/-- The closed set of type-tag classes an `ArgumentABI.type_tag` can hold:
the six scalar tag classes or one of the six `VectorTag` subclasses. -/
inductive TagClass
  | boolC | u8C | u64C | u128C | addrC | structC
  | vecC (c : VecClass)
deriving DecidableEq, Repr

/-- A constructed scalar tag instance (`BoolTag(v)`, `U8Tag(v)`, …). -/
inductive ScalTag
  | boolT (b : Bool)
  | u8T (n : Nat)
  | u64T (n : Nat)
  | u128T (n : Nat)
  | addrT (a : List Nat)
  | structT (s : StructT)
deriving DecidableEq, Repr

/-- A constructed typed value: a scalar tag instance, or a `VectorTag`
subclass instance holding its `value` list of element tag instances. -/
inductive TagVal
  | scal (t : ScalTag)
  | vec (c : VecClass) (xs : List ScalTag)
deriving DecidableEq, Repr

/-- The tag class a scalar tag instance belongs to. -/
def scalClass : ScalTag → TagClass
  | .boolT _ => .boolC
  | .u8T _ => .u8C
  | .u64T _ => .u64C
  | .u128T _ => .u128C
  | .addrT _ => .addrC
  | .structT _ => .structC

/-- The element tag class a `VectorTag` subclass wraps. -/
def elemClass : VecClass → TagClass
  | .vBool => .boolC
  | .vU8 => .u8C
  | .vU64 => .u64C
  | .vU128 => .u128C
  | .vAddr => .addrC
  | .vStruct => .structC

/-- The tag class of a constructed typed value. -/
def tagValClass : TagVal → TagClass
  | .scal t => scalClass t
  | .vec c _ => .vecC c

/-- Whether every element of a vector value belongs to the vector's element
class (vacuously true for scalars). -/
def elemsOk : TagVal → Bool
  | .scal _ => true
  | .vec c xs => xs.all fun x => scalClass x = elemClass c

/-- Modelled from the spec: Python truthiness of a constructed tag object —
tag instances define neither `__bool__` nor `__len__`, so they are always
truthy. -/
def truthy : TagVal → Bool := fun _ => true

/-- The shared body of the `VectorTag` subclass constructors: the
`assert isinstance(list(value), list)` guard, then one element tag built
from each item of the value. -/
def vectorNew (c : VecClass) (elemNew : Raw → Option ScalTag) (value : Raw) :
    Option TagVal := do
  let b ← seqAssert value
  if b then do
    let l ← pyList value
    let elems ← mapOpt elemNew l
    pure (.vec c elems)
  else none

/-- `VectorBoolTag(value)`. -/
def VectorBoolTag.ofRaw : Raw → Option TagVal :=
  vectorNew .vBool fun r => (boolNew r).map .boolT

/-- `VectorU8Tag(value)`. -/
def VectorU8Tag.ofRaw : Raw → Option TagVal :=
  vectorNew .vU8 fun r => (uintNew 8 r).map .u8T

/-- `VectorU64Tag(value)`. -/
def VectorU64Tag.ofRaw : Raw → Option TagVal :=
  vectorNew .vU64 fun r => (uintNew 64 r).map .u64T

/-- `VectorU128Tag(value)`. -/
def VectorU128Tag.ofRaw : Raw → Option TagVal :=
  vectorNew .vU128 fun r => (uintNew 128 r).map .u128T

/-- `VectorAccountAddressTag(value)`. -/
def VectorAccountAddressTag.ofRaw : Raw → Option TagVal :=
  vectorNew .vAddr fun r => (addrNew r).map .addrT

/-- `VectorStructTag(value)` — elements go through `StructTag.from_str`. -/
def VectorStructTag.ofRaw : Raw → Option TagVal :=
  vectorNew .vStruct fun r => (structFromStr r).map .structT

/-- `type_tag(raw)`: invoking the stored type-tag class as a constructor on
a raw value — the dispatch the binder performs for every non-`StructTag`
argument class (the `StructTag` class goes through `from_str` instead, as in
the binder's own branch). -/
def coerceArg : TagClass → Raw → Option TagVal
  | .structC, raw => (structFromStr raw).map fun s => .scal (.structT s)
  | .boolC, raw => (boolNew raw).map fun b => .scal (.boolT b)
  | .u8C, raw => (uintNew 8 raw).map fun n => .scal (.u8T n)
  | .u64C, raw => (uintNew 64 raw).map fun n => .scal (.u64T n)
  | .u128C, raw => (uintNew 128 raw).map fun n => .scal (.u128T n)
  | .addrC, raw => (addrNew raw).map fun a => .scal (.addrT a)
  | .vecC .vBool, raw => VectorBoolTag.ofRaw raw
  | .vecC .vU8, raw => VectorU8Tag.ofRaw raw
  | .vecC .vU64, raw => VectorU64Tag.ofRaw raw
  | .vecC .vU128, raw => VectorU128Tag.ofRaw raw
  | .vecC .vAddr, raw => VectorAccountAddressTag.ofRaw raw
  | .vecC .vStruct, raw => VectorStructTag.ofRaw raw

/-- The length-prefixed encoding of a character list (struct-tag component). -/
def strEncodeChars (cs : List Char) : List Nat :=
  strEncode (cs.map Char.toNat)

/-- Modelled from the spec: the canonical binary encoding of one scalar tag
instance — Bool one byte 0/1, U8 one byte, U64/U128 fixed-width
little-endian 8/16 bytes, a 32-byte address verbatim, and for a struct tag
the length-prefixed qualified-name components. -/
def scalSerialize : ScalTag → List Nat
  | .boolT b => [if b then 1 else 0]
  | .u8T n => leBytes 1 n
  | .u64T n => leBytes 8 n
  | .u128T n => leBytes 16 n
  | .addrT a => a
  | .structT s => strEncodeChars s.address ++ strEncodeChars s.module ++ strEncodeChars s.name

/-- `VectorTag.serialize`: `serializer.sequence(self.value, Serializer.struct)`
— a uleb128 element count followed by each element's own encoding. -/
def VectorTag.serialize (xs : List ScalTag) : List Nat :=
  ulebEncode xs.length ++ (xs.map scalSerialize).flatten

/-- Modelled from the spec: `BoolTag.deserialize` — one byte, 0 or 1;
anything else is a decode error. -/
def BoolTag.des : List Nat → Option (ScalTag × List Nat)
  | 0 :: r => some (.boolT false, r)
  | 1 :: r => some (.boolT true, r)
  | _ => none

/-- The Python objects a vector round trip can produce: a constructed tag
object, or a plain Python list of element tag instances (what
`deserializer.sequence` returns). -/
inductive PyVal
  | tagObj (t : TagVal)
  | listObj (xs : List ScalTag)
deriving DecidableEq, Repr

/-- `VectorBoolTag.deserialize`: `deserializer.sequence(BoolTag.deserialize)`
— the decoded element list is returned as-is, a plain Python list. -/
def VectorBoolTag.deserialize (bs : List Nat) : Option (PyVal × List Nat) :=
  (desSeq BoolTag.des bs).map fun p => (PyVal.listObj p.1, p.2)

/-- Modelled from the spec: Python `==` between two such objects.
`VectorTag.__eq__` compares `self.value == other.value`; when the reflected
comparison reaches it with a plain list on the other side, reading
`other.value` raises `AttributeError` (`none`).  Scalar tags compare their
stored values; a scalar against a container compares unequal. -/
def pyValEq : PyVal → PyVal → Option Bool
  | .listObj xs, .listObj ys => some (decide (xs = ys))
  | .tagObj (.vec _ xs), .tagObj (.vec _ ys) => some (decide (xs = ys))
  | .tagObj (.scal x), .tagObj (.scal y) => some (decide (x = y))
  | .listObj _, .tagObj (.vec _ _) => none
  | .tagObj (.vec _ _), .listObj _ => none
  | .listObj _, .tagObj (.scal _) => none
  | .tagObj (.scal _), .listObj _ => none
  | .tagObj (.scal _), .tagObj (.vec _ _) => some false
  | .tagObj (.vec _ _), .tagObj (.scal _) => some false

/-- Modelled from the spec: the `TypeTag` discriminant constants, in their
declared order BOOL, U8, U64, U128, ACCOUNT_ADDRESS, SIGNER, VECTOR, STRUCT. -/
def TypeTag.BOOL : Nat := 0

def TypeTag.U8 : Nat := 1

def TypeTag.U64 : Nat := 2

def TypeTag.U128 : Nat := 3

def TypeTag.ACCOUNT_ADDRESS : Nat := 4

def TypeTag.SIGNER : Nat := 5

def TypeTag.VECTOR : Nat := 6

def TypeTag.STRUCT : Nat := 7

/-- The classes `ArgumentABI.get_tag` can return: the six scalar tag classes
or the abstract `VectorTag` base class. -/
inductive GetTagResult
  | boolTagR | u8TagR | u64TagR | u128TagR | addrTagR | vectorTagR | structTagR
deriving DecidableEq, Repr

/-- `ArgumentABI.get_tag`: discriminant to tag class; SIGNER and any
out-of-range discriminant raise `NotImplementedError` (`none`). -/
def get_tag (variant : Nat) : Option GetTagResult :=
  if variant = TypeTag.BOOL then some .boolTagR
  else if variant = TypeTag.U8 then some .u8TagR
  else if variant = TypeTag.U64 then some .u64TagR
  else if variant = TypeTag.U128 then some .u128TagR
  else if variant = TypeTag.ACCOUNT_ADDRESS then some .addrTagR
  else if variant = TypeTag.SIGNER then none
  else if variant = TypeTag.VECTOR then some .vectorTagR
  else if variant = TypeTag.STRUCT then some .structTagR
  else none

/-- `ArgumentABI.get_vector_tag`: element tag class to `VectorTag` subclass;
a `VectorTag` element (vector-of-vector) raises `NotImplementedError`. -/
def get_vector_tag : GetTagResult → Option VecClass
  | .boolTagR => some .vBool
  | .u8TagR => some .vU8
  | .u64TagR => some .vU64
  | .u128TagR => some .vU128
  | .addrTagR => some .vAddr
  | .vectorTagR => none
  | .structTagR => some .vStruct

/-- The scalar tag class a non-vector `get_tag` result stands for. -/
def scalarTagClass : GetTagResult → Option TagClass
  | .boolTagR => some .boolC
  | .u8TagR => some .u8C
  | .u64TagR => some .u64C
  | .u128TagR => some .u128C
  | .addrTagR => some .addrC
  | .structTagR => some .structC
  | .vectorTagR => none

/-- One named, typed parameter slot of a contract function signature. -/
structure ArgumentABI where
  name : List Nat
  type_tag : TagClass
deriving DecidableEq, Repr

/-- `ArgumentABI.deserialize`: a length-prefixed name, a uleb128 type
discriminant, and — only when that discriminant is VECTOR — one more uleb128
discriminant naming the element class. -/
def ArgumentABI.deserialize (bs : List Nat) : Option (ArgumentABI × List Nat) := do
  let (name, r1) ← desStr bs
  let (variant, r2) ← ulebDecode r1
  let t ← get_tag variant
  if t = .vectorTagR then do
    let (variant2, r3) ← ulebDecode r2
    let t2 ← get_tag variant2
    let c ← get_vector_tag t2
    pure (⟨name, .vecC c⟩, r3)
  else do
    let tc ← scalarTagClass t
    pure (⟨name, tc⟩, r2)

/-- A module identifier: declaring address and module name. -/
structure ModuleId where
  address : List Nat
  name : List Nat
deriving DecidableEq, Repr

/-- Modelled from the spec: `ModuleId.deserialize` — a fixed 32-byte account
address followed by a length-prefixed module name. -/
def ModuleId.deserialize (bs : List Nat) : Option (ModuleId × List Nat) := do
  let (addr, r1) ← desBytes 32 bs
  let (name, r2) ← desStr r1
  pure (⟨addr, name⟩, r2)

/-- A full callable-function signature decoded from one ABI file. -/
structure EntryFunctionABI where
  name : List Nat
  module : ModuleId
  doc : List Nat
  ty_args : List (List Nat)
  args : List ArgumentABI
deriving DecidableEq, Repr

/-- `EntryFunctionABI.deserialize`: a throwaway u8, the function name, the
module id, the doc string, the type-parameter name sequence, the argument
descriptor sequence. -/
def EntryFunctionABI.deserialize (bs : List Nat) :
    Option (EntryFunctionABI × List Nat) := do
  let (_, r0) ← desU8 bs
  let (name, r1) ← desStr r0
  let (module, r2) ← ModuleId.deserialize r1
  let (doc, r3) ← desStr r2
  let (tyArgs, r4) ← desSeq desStr r3
  let (args, r5) ← desSeq ArgumentABI.deserialize r4
  pure (⟨name, module, doc, tyArgs, args⟩, r5)

/-- `EntryFunctionABI.key`: the registry lookup key
`f"{self.module.name}::{self.name}"` (58 is the byte of `:`). -/
def EntryFunctionABI.key (abi : EntryFunctionABI) : List Nat :=
  abi.module.name ++ [58, 58] ++ abi.name

/-- Modelled from the spec: Python `dict` insertion — an existing key's entry
is overwritten in place, a new key is appended (insertion order kept). -/
def dictInsert (d : List (List Nat × EntryFunctionABI)) (k : List Nat)
    (v : EntryFunctionABI) : List (List Nat × EntryFunctionABI) :=
  if d.any (fun p => p.1 = k) then
    d.map fun p => if p.1 = k then (k, v) else p
  else d ++ [(k, v)]

/-- One file of a module's ABI directory: its file name and raw bytes. -/
structure AbiFile where
  name : List Char
  data : List Nat

/-- One entry of the top-level `abis` directory: a module subdirectory with
its files, or a plain (non-directory) entry, which the scan skips. -/
inductive AbisEntry
  | dir (name : List Char) (files : List AbiFile)
  | plainFile (name : List Char)

/-- Whether a file name ends in the `.abi` extension. -/
def endsWithAbi (name : List Char) : Bool :=
  List.isSuffixOf ['.', 'a', 'b', 'i'] name

/-- The diagnostic the scan prints for one undecodable file:
`f"Decode {v2} fail"`. -/
def decodeFailMsg (name : List Char) : List Char :=
  ['D', 'e', 'c', 'o', 'd', 'e', ' '] ++ name ++ [' ', 'f', 'a', 'i', 'l']

/-- One file step of the `compile` abis scan: skip a wrong-extension file,
insert a decoded ABI under its key, or record the decode diagnostic and
continue (the `try`/`except` around `EntryFunctionABI.deserialize`). -/
def scanFile (st : List (List Nat × EntryFunctionABI) × List (List Char))
    (f : AbiFile) : List (List Nat × EntryFunctionABI) × List (List Char) :=
  if ¬ endsWithAbi f.name then st
  else
    match EntryFunctionABI.deserialize f.data with
    | some (abi, _) => (dictInsert st.1 abi.key abi, st.2)
    | none => (st.1, st.2 ++ [decodeFailMsg f.name])

/-- The abis section of `AptosPackage.compile`: walk the module
subdirectories (skipping plain files), scan each file, and return the
registry together with the emitted diagnostics. -/
def AptosPackage.compileAbis (entries : List AbisEntry) :
    List (List Nat × EntryFunctionABI) × List (List Char) :=
  entries.foldl
    (fun st e =>
      match e with
      | .dir _ files => files.foldl scanFile st
      | .plainFile _ => st)
    ([], [])

/-- The errors an argument-binding attempt can surface: the two arity
asserts, the missing-named-parameter assert, the (dead) `Param ... not
match` assert, an exception raised inside a tag constructor (which carries
the offending raw value but names no parameter), and an out-of-range
positional index. -/
inductive BindError
  | tyArgsError
  | argsError
  | paramNotFound (name : List Nat)
  | paramNotMatch (name : List Nat)
  | coercionRaise (offending : Raw)
  | indexError

/-- One bound argument: the `{"value": value, "abi": function_arg}` record
appended to `normal_args`. -/
structure BoundArg where
  value : TagVal
  abi : ArgumentABI

/-- First-match lookup of a named argument in the supplied mapping. -/
def lookupKw (k : List Nat) : List (List Nat × Raw) → Option Raw
  | [] => none
  | p :: ps => if p.1 = k then some p.2 else lookupKw k ps

/-- The coercion of one raw value to one descriptor slot, as the binder
writes it: the `StructTag` class goes through `from_str`, every other class
is invoked directly as a constructor. -/
def coerceSlot (a : ArgumentABI) (raw : Raw) : Except BindError BoundArg :=
  match coerceArg a.type_tag raw with
  | none => .error (.coercionRaise raw)
  | some v =>
    if truthy v then .ok ⟨v, a⟩
    else .error (.paramNotMatch a.name)

/-- The named-form loop of `submit_bcs_transaction`: each descriptor
argument, in declaration order, must be present in the mapping and coerce. -/
def bindNamed (l : List ArgumentABI) (kwargs : List (List Nat × Raw)) :
    Except BindError (List BoundArg) :=
  match l with
  | [] => .ok []
  | a :: rest =>
    match lookupKw a.name kwargs with
    | none => .error (.paramNotFound a.name)
    | some raw =>
      match coerceSlot a raw with
      | .error e => .error e
      | .ok b =>
        match bindNamed rest kwargs with
        | .error e => .error e
        | .ok bs => .ok (b :: bs)

/-- The positional-form loop: `enumerate(abi.args)` with `args[i]`. -/
def bindPos (args : List Raw) : List ArgumentABI → Nat →
    Except BindError (List BoundArg)
  | [], _ => .ok []
  | a :: rest, i =>
    match args.get? i with
    | none => .error .indexError
    | some raw =>
      match coerceSlot a raw with
      | .error e => .error e
      | .ok b =>
        match bindPos args rest (i + 1) with
        | .error e => .error e
        | .ok bs => .ok (b :: bs)

/-- The `ty_args` assert of `submit_bcs_transaction`:
`isinstance(list(ty_args), list) and len(abi.ty_args) == len(ty_args)`. -/
def tyArgsCheck (abiTy : List (List Nat)) (tyArgs : List Raw) : Bool :=
  (seqAssert (Raw.list tyArgs) == some true) && (abiTy.length == tyArgs.length)

/-- The argument-binding portion of `AptosPackage.submit_bcs_transaction`:
the two arity asserts, then the named loop when any named values were
supplied, the positional loop otherwise, yielding `normal_args`. -/
def AptosPackage.submit_bcs_transaction (abi : EntryFunctionABI)
    (args : List Raw) (kwargs : List (List Nat × Raw)) (tyArgs : List Raw) :
    Except BindError (List BoundArg) :=
  if ¬ tyArgsCheck abi.ty_args tyArgs then .error .tyArgsError
  else if ¬ (args.length = abi.args.length ∨ kwargs.length = abi.args.length) then
    .error .argsError
  else if kwargs.length ≠ 0 then bindNamed abi.args kwargs
  else bindPos args abi.args 0

/-! ### Round-trip facts for the binary primitives -/

theorem ulebDecode_ulebEncode (n : Nat) :
    ∀ rest, ulebDecode (ulebEncode n ++ rest) = some (n, rest) := by
  induction n using Nat.strong_induction_on with
  | _ n ih =>
    intro rest
    rw [ulebEncode]
    by_cases h : n < 128
    · simp [h, ulebDecode]
    · have hdiv : n / 128 < n := Nat.div_lt_self (by omega) (by omega)
      have hb : ¬ (n % 128 + 128 < 128) := by omega
      simp only [if_neg h, List.cons_append, ulebDecode, hb, if_false,
        ih (n / 128) hdiv rest]
      simp only [Option.some.injEq, Prod.mk.injEq, and_true]
      omega

theorem desStr_strEncode (s rest : List Nat) :
    desStr (strEncode s ++ rest) = some (s, rest) := by
  simp only [strEncode, List.append_assoc, desStr, ulebDecode_ulebEncode,
    Option.bind_eq_bind, Option.some_bind]
  rw [if_pos (by simp)]
  simp [List.take_left, List.drop_left]

/-- C6: a SIGNER discriminant, or a VECTOR discriminant whose element
discriminant is again VECTOR, makes `ArgumentABI.deserialize` fail with a
fatal decode error (`NotImplementedError`), never a silently coerced
descriptor. -/
theorem c6_signer_and_vector_of_vector_fatal (nm rest : List Nat) :
    ArgumentABI.deserialize
        (strEncode nm ++ ulebEncode TypeTag.SIGNER ++ rest) = none ∧
    ArgumentABI.deserialize
        (strEncode nm ++ ulebEncode TypeTag.VECTOR ++
          (ulebEncode TypeTag.VECTOR ++ rest)) = none := by
  constructor
  · simp [ArgumentABI.deserialize, List.append_assoc, desStr_strEncode,
      ulebDecode_ulebEncode, get_tag, TypeTag.BOOL, TypeTag.U8, TypeTag.U64,
      TypeTag.U128, TypeTag.ACCOUNT_ADDRESS, TypeTag.SIGNER, TypeTag.VECTOR,
      TypeTag.STRUCT]
  · simp [ArgumentABI.deserialize, List.append_assoc, desStr_strEncode,
      ulebDecode_ulebEncode, get_tag, get_vector_tag, TypeTag.BOOL, TypeTag.U8,
      TypeTag.U64, TypeTag.U128, TypeTag.ACCOUNT_ADDRESS, TypeTag.SIGNER,
      TypeTag.VECTOR, TypeTag.STRUCT]

/-- C9: one descriptor record is a length-prefixed name, one uleb128 type
discriminant, and exactly one further uleb128 element discriminant exactly
when the first one is VECTOR; the decoded descriptor carries the class the
discriminant names (for VECTOR, the vector class of the decoded element
class), and decoding resumes at `rest`. -/
theorem c9_argument_descriptor_layout (nm rest : List Nat) :
    ArgumentABI.deserialize (strEncode nm ++ ulebEncode TypeTag.BOOL ++ rest)
        = some (⟨nm, .boolC⟩, rest) ∧
    ArgumentABI.deserialize (strEncode nm ++ ulebEncode TypeTag.U8 ++ rest)
        = some (⟨nm, .u8C⟩, rest) ∧
    ArgumentABI.deserialize (strEncode nm ++ ulebEncode TypeTag.U64 ++ rest)
        = some (⟨nm, .u64C⟩, rest) ∧
    ArgumentABI.deserialize (strEncode nm ++ ulebEncode TypeTag.U128 ++ rest)
        = some (⟨nm, .u128C⟩, rest) ∧
    ArgumentABI.deserialize
        (strEncode nm ++ ulebEncode TypeTag.ACCOUNT_ADDRESS ++ rest)
        = some (⟨nm, .addrC⟩, rest) ∧
    ArgumentABI.deserialize (strEncode nm ++ ulebEncode TypeTag.STRUCT ++ rest)
        = some (⟨nm, .structC⟩, rest) ∧
    ArgumentABI.deserialize
        (strEncode nm ++ ulebEncode TypeTag.VECTOR ++
          (ulebEncode TypeTag.BOOL ++ rest))
        = some (⟨nm, .vecC .vBool⟩, rest) ∧
    ArgumentABI.deserialize
        (strEncode nm ++ ulebEncode TypeTag.VECTOR ++
          (ulebEncode TypeTag.U8 ++ rest))
        = some (⟨nm, .vecC .vU8⟩, rest) ∧
    ArgumentABI.deserialize
        (strEncode nm ++ ulebEncode TypeTag.VECTOR ++
          (ulebEncode TypeTag.U64 ++ rest))
        = some (⟨nm, .vecC .vU64⟩, rest) ∧
    ArgumentABI.deserialize
        (strEncode nm ++ ulebEncode TypeTag.VECTOR ++
          (ulebEncode TypeTag.U128 ++ rest))
        = some (⟨nm, .vecC .vU128⟩, rest) ∧
    ArgumentABI.deserialize
        (strEncode nm ++ ulebEncode TypeTag.VECTOR ++
          (ulebEncode TypeTag.ACCOUNT_ADDRESS ++ rest))
        = some (⟨nm, .vecC .vAddr⟩, rest) ∧
    ArgumentABI.deserialize
        (strEncode nm ++ ulebEncode TypeTag.VECTOR ++
          (ulebEncode TypeTag.STRUCT ++ rest))
        = some (⟨nm, .vecC .vStruct⟩, rest) := by
  refine ⟨?_, ?_, ?_, ?_, ?_, ?_, ?_, ?_, ?_, ?_, ?_, ?_⟩ <;>
    simp [ArgumentABI.deserialize, List.append_assoc, desStr_strEncode,
      ulebDecode_ulebEncode, get_tag, get_vector_tag, scalarTagClass,
      TypeTag.BOOL, TypeTag.U8, TypeTag.U64, TypeTag.U128,
      TypeTag.ACCOUNT_ADDRESS, TypeTag.SIGNER, TypeTag.VECTOR, TypeTag.STRUCT]

/-- C1: the round-trip law fails on the vector variants.  For the
representative value `VectorBoolTag([True, False])`, serialization produces
the canonical bytes, but `VectorBoolTag.deserialize` returns the bare
element list (the unwrapped result of `deserializer.sequence`), and
comparing that list with the original wrapper object raises
`AttributeError` inside `VectorTag.__eq__` in either orientation, so
`decode(encode(v)) == v` does not hold. -/
theorem c1_vector_roundtrip_fails :
    VectorBoolTag.ofRaw (Raw.list [Raw.bool true, Raw.bool false])
        = some (TagVal.vec .vBool [.boolT true, .boolT false]) ∧
    VectorTag.serialize [.boolT true, .boolT false] = [2, 1, 0] ∧
    VectorBoolTag.deserialize (VectorTag.serialize [.boolT true, .boolT false])
        = some (PyVal.listObj [.boolT true, .boolT false], []) ∧
    pyValEq (PyVal.listObj [.boolT true, .boolT false])
        (PyVal.tagObj (TagVal.vec .vBool [.boolT true, .boolT false])) = none ∧
    pyValEq (PyVal.tagObj (TagVal.vec .vBool [.boolT true, .boolT false]))
        (PyVal.listObj [.boolT true, .boolT false]) = none := by
  have h2 : VectorTag.serialize [ScalTag.boolT true, ScalTag.boolT false]
      = [2, 1, 0] := by
    simp [VectorTag.serialize, scalSerialize, ulebEncode]
  refine ⟨rfl, h2, ?_, rfl, rfl⟩
  rw [h2]
  rfl

/-- C10: the `assert isinstance(list(x), list)` guard can never fail.
Whenever `list(x)` evaluates, the `isinstance` verdict is `True`, so the
vector constructors behave exactly as if the assert were absent, the
`ty_args` check reduces to the pure length comparison, any iterable
(strings and dicts included) passes the guard, and a non-iterable makes
`list(x)` itself raise before the assert is evaluated. -/
theorem c10_seq_assert_unreachable :
    (∀ v : Raw, seqAssert v = (pyList v).map fun _ => true) ∧
    (∀ (c : VecClass) (f : Raw → Option ScalTag) (v : Raw),
      vectorNew c f v =
        (pyList v).bind fun l => (mapOpt f l).map (TagVal.vec c)) ∧
    (∀ (abiTy : List (List Nat)) (tyArgs : List Raw),
      tyArgsCheck abiTy tyArgs = (abiTy.length == tyArgs.length)) ∧
    seqAssert (Raw.str "ab") = some true ∧
    seqAssert (Raw.dict [Raw.str "k", Raw.int 1]) = some true ∧
    seqAssert (Raw.int 3) = none := by
  refine ⟨fun v => ?_, fun c f v => ?_, fun abiTy tyArgs => ?_, rfl, rfl, rfl⟩
  · cases v <;> rfl
  · cases v <;> simp [vectorNew, seqAssert, pyList, isinstanceList,
      Option.bind_eq_bind, Option.map_eq_bind, Function.comp]
  · rfl

/-! ### Registry build: spec-side characterization -/

/-- The files of the module subdirectories, in scan order. -/
def abiFilesOf (entries : List AbisEntry) : List AbiFile :=
  entries.foldr
    (fun e acc =>
      match e with
      | .dir _ fs => fs ++ acc
      | .plainFile _ => acc)
    []

/-- Following the spec's words: the key/descriptor pairs of exactly those
`.abi` files that decode successfully, in scan order. -/
def specGoodEntries (files : List AbiFile) :
    List (List Nat × EntryFunctionABI) :=
  files.filterMap fun f =>
    if endsWithAbi f.name then
      (EntryFunctionABI.deserialize f.data).map fun p => (p.1.key, p.1)
    else none

/-- Following the spec's words: one diagnostic, naming the file, for exactly
those `.abi` files that fail to decode. -/
def specFailDiags (files : List AbiFile) : List (List Char) :=
  files.filterMap fun f =>
    if endsWithAbi f.name ∧ EntryFunctionABI.deserialize f.data = none then
      some (decodeFailMsg f.name)
    else none

theorem scanFile_foldl (files : List AbiFile)
    (st : List (List Nat × EntryFunctionABI) × List (List Char)) :
    files.foldl scanFile st =
      ((specGoodEntries files).foldl (fun d p => dictInsert d p.1 p.2) st.1,
       st.2 ++ specFailDiags files) := by
  induction files generalizing st with
  | nil => simp [specGoodEntries, specFailDiags]
  | cons f fs ih =>
    simp only [List.foldl_cons]
    by_cases hx : endsWithAbi f.name
    · cases hdec : EntryFunctionABI.deserialize f.data with
      | some p =>
        rw [ih]
        simp [scanFile, specGoodEntries, specFailDiags, hx, hdec]
      | none =>
        rw [ih]
        simp [scanFile, specGoodEntries, specFailDiags, hx, hdec]
    · rw [ih]
      simp [scanFile, specGoodEntries, specFailDiags, hx]

theorem compileAbis_foldl (entries : List AbisEntry)
    (st : List (List Nat × EntryFunctionABI) × List (List Char)) :
    entries.foldl
        (fun st e =>
          match e with
          | .dir _ files => files.foldl scanFile st
          | .plainFile _ => st) st =
      ((specGoodEntries (abiFilesOf entries)).foldl
        (fun d p => dictInsert d p.1 p.2) st.1,
       st.2 ++ specFailDiags (abiFilesOf entries)) := by
  induction entries generalizing st with
  | nil => simp [abiFilesOf, specGoodEntries, specFailDiags]
  | cons e es ih =>
    cases e with
    | dir name files =>
      simp only [List.foldl_cons]
      rw [scanFile_foldl, ih]
      simp [abiFilesOf, specGoodEntries, specFailDiags, List.filterMap_append,
        List.foldl_append, List.append_assoc]
    | plainFile name =>
      simp only [List.foldl_cons]
      rw [ih]
      simp [abiFilesOf]

/-- C7: the registry build never fails because of one bad file — it is a
total fold whose registry holds exactly the key/descriptor pairs of the
`.abi` files that decoded successfully, and whose diagnostics name exactly
the `.abi` files that failed to decode; files without the `.abi` extension
(and non-directory entries) contribute neither. -/
theorem c7_registry_build_tolerance (entries : List AbisEntry) :
    AptosPackage.compileAbis entries =
      ((specGoodEntries (abiFilesOf entries)).foldl
        (fun d p => dictInsert d p.1 p.2) [],
       specFailDiags (abiFilesOf entries)) := by
  have h := compileAbis_foldl entries ([], [])
  simpa [AptosPackage.compileAbis] using h

/-- C8: the registry key of a decoded descriptor is
`module_name::function_name`, and when two files of one module directory
decode to descriptors sharing that key, the scan keeps only the later one —
the earlier entry is silently overwritten, with no diagnostic emitted. -/
theorem c8_key_and_silent_overwrite (d : List Char) (f1 f2 : AbiFile)
    (abi1 abi2 : EntryFunctionABI) (r1 r2 : List Nat)
    (hx1 : endsWithAbi f1.name = true) (hx2 : endsWithAbi f2.name = true)
    (h1 : EntryFunctionABI.deserialize f1.data = some (abi1, r1))
    (h2 : EntryFunctionABI.deserialize f2.data = some (abi2, r2))
    (hk : abi1.key = abi2.key) :
    abi2.key = abi2.module.name ++ [58, 58] ++ abi2.name ∧
    AptosPackage.compileAbis [.dir d [f1, f2]] = ([(abi2.key, abi2)], []) := by
  refine ⟨rfl, ?_⟩
  simp [AptosPackage.compileAbis, scanFile, hx1, hx2, h1, h2, dictInsert, hk]

/-- A concrete decodable ABI file `a.abi`: version byte, name `f`, a
32-zero-byte module address, module name `m`, doc byte 100, no type
parameters, no arguments. -/
def f1W : AbiFile :=
  ⟨['a', '.', 'a', 'b', 'i'],
   [1, 1, 102] ++ List.replicate 32 0 ++ [1, 109, 1, 100, 0, 0]⟩

/-- A second decodable ABI file `b.abi` for the same `m::f` key, differing
only in its doc byte. -/
def f2W : AbiFile :=
  ⟨['b', '.', 'a', 'b', 'i'],
   [1, 1, 102] ++ List.replicate 32 0 ++ [1, 109, 1, 101, 0, 0]⟩

/-- The descriptor `f1W` decodes to. -/
def abi1W : EntryFunctionABI := ⟨[102], ⟨List.replicate 32 0, [109]⟩, [100], [], []⟩

/-- The descriptor `f2W` decodes to. -/
def abi2W : EntryFunctionABI := ⟨[102], ⟨List.replicate 32 0, [109]⟩, [101], [], []⟩

theorem c8_key_and_silent_overwrite_witness :
    abi2W.key = abi2W.module.name ++ [58, 58] ++ abi2W.name ∧
    AptosPackage.compileAbis [.dir ['m'] [f1W, f2W]] = ([(abi2W.key, abi2W)], []) :=
  c8_key_and_silent_overwrite ['m'] f1W f2W abi1W abi2W [] []
    (by rfl) (by rfl) (by rfl) (by rfl) (by rfl)

/-! ### Binder lemmas -/

/-- The errors the per-argument loops can produce (everything except the
two arity asserts). -/
def loopErr : BindError → Bool
  | .paramNotFound _ => true
  | .coercionRaise _ => true
  | .indexError => true
  | _ => false

theorem coerceSlot_ok (a : ArgumentABI) (raw : Raw) (b : BoundArg) :
    coerceSlot a raw = .ok b →
      b.abi = a ∧ coerceArg a.type_tag raw = some b.value := by
  intro h
  cases hc : coerceArg a.type_tag raw with
  | none => simp [coerceSlot, hc] at h
  | some v =>
    simp [coerceSlot, truthy, hc] at h
    simp [← h, hc]

theorem coerceSlot_error (a : ArgumentABI) (raw : Raw) (e : BindError) :
    coerceSlot a raw = .error e → e = .coercionRaise raw := by
  intro h
  cases hc : coerceArg a.type_tag raw <;>
    simp [coerceSlot, truthy, hc] at h
  exact h.symm

theorem bindNamed_err (l : List ArgumentABI) (kwargs : List (List Nat × Raw))
    (e : BindError) : bindNamed l kwargs = .error e → loopErr e = true := by
  induction l with
  | nil => intro h; simp [bindNamed] at h
  | cons a rest ih =>
    intro h
    rw [bindNamed] at h
    cases hlk : lookupKw a.name kwargs with
    | none =>
      simp only [hlk] at h
      cases h
      rfl
    | some raw =>
      simp only [hlk] at h
      cases hcs : coerceSlot a raw with
      | error e2 =>
        simp only [hcs] at h
        injection h with h2
        rw [← h2, coerceSlot_error a raw e2 hcs]
        rfl
      | ok b =>
        simp only [hcs] at h
        cases hrec : bindNamed rest kwargs with
        | error e2 =>
          simp only [hrec] at h
          cases h
          exact ih hrec
        | ok bs =>
          simp only [hrec] at h
          cases h

theorem bindPos_err (args : List Raw) (l : List ArgumentABI) (i : Nat)
    (e : BindError) : bindPos args l i = .error e → loopErr e = true := by
  induction l generalizing i with
  | nil => intro h; simp [bindPos] at h
  | cons a rest ih =>
    intro h
    rw [bindPos] at h
    cases hg : args.get? i with
    | none =>
      simp only [hg] at h
      cases h
      rfl
    | some raw =>
      simp only [hg] at h
      cases hcs : coerceSlot a raw with
      | error e2 =>
        simp only [hcs] at h
        injection h with h2
        rw [← h2, coerceSlot_error a raw e2 hcs]
        rfl
      | ok b =>
        simp only [hcs] at h
        cases hrec : bindPos args rest (i + 1) with
        | error e2 =>
          simp only [hrec] at h
          cases h
          exact ih (i + 1) hrec
        | ok bs =>
          simp only [hrec] at h
          cases h

theorem bindNamed_ok (l : List ArgumentABI) (kwargs : List (List Nat × Raw))
    (out : List BoundArg) :
    bindNamed l kwargs = .ok out →
      out.map BoundArg.abi = l ∧
      ∀ b ∈ out, ∃ raw, lookupKw b.abi.name kwargs = some raw ∧
        coerceArg b.abi.type_tag raw = some b.value := by
  induction l generalizing out with
  | nil =>
    intro h
    rw [bindNamed] at h
    cases h
    simp
  | cons a rest ih =>
    intro h
    rw [bindNamed] at h
    cases hlk : lookupKw a.name kwargs with
    | none => simp only [hlk] at h; exact Except.noConfusion h
    | some raw =>
      simp only [hlk] at h
      cases hcs : coerceSlot a raw with
      | error e2 => simp only [hcs] at h; exact Except.noConfusion h
      | ok b =>
        simp only [hcs] at h
        cases hrec : bindNamed rest kwargs with
        | error e2 => simp only [hrec] at h; exact Except.noConfusion h
        | ok bs =>
          simp only [hrec] at h
          cases h
          obtain ⟨hab, hco⟩ := coerceSlot_ok a raw b hcs
          obtain ⟨hmap, hmem⟩ := ih bs hrec
          refine ⟨by simp [hmap, hab], ?_⟩
          intro x hx
          rcases List.mem_cons.mp hx with hx | hx
          · subst hx
            exact ⟨raw, by rw [hab]; exact hlk, by rw [hab]; exact hco⟩
          · exact hmem x hx

theorem bindPos_ok (args : List Raw) (l : List ArgumentABI) (i : Nat)
    (out : List BoundArg) :
    bindPos args l i = .ok out →
      out.map BoundArg.abi = l ∧
      ∀ b ∈ out, ∃ raw, coerceArg b.abi.type_tag raw = some b.value := by
  induction l generalizing i out with
  | nil =>
    intro h
    rw [bindPos] at h
    cases h
    simp
  | cons a rest ih =>
    intro h
    rw [bindPos] at h
    cases hg : args.get? i with
    | none => simp only [hg] at h; exact Except.noConfusion h
    | some raw =>
      simp only [hg] at h
      cases hcs : coerceSlot a raw with
      | error e2 => simp only [hcs] at h; exact Except.noConfusion h
      | ok b =>
        simp only [hcs] at h
        cases hrec : bindPos args rest (i + 1) with
        | error e2 => simp only [hrec] at h; exact Except.noConfusion h
        | ok bs =>
          simp only [hrec] at h
          cases h
          obtain ⟨hab, hco⟩ := coerceSlot_ok a raw b hcs
          obtain ⟨hmap, hmem⟩ := ih (i + 1) bs hrec
          refine ⟨by simp [hmap, hab], ?_⟩
          intro x hx
          rcases List.mem_cons.mp hx with hx | hx
          · subst hx
            exact ⟨raw, by rw [hab]; exact hco⟩
          · exact hmem x hx

theorem mapOpt_mem {f : α → Option β} {P : β → Prop}
    (hf : ∀ a b, f a = some b → P b) :
    ∀ (l : List α) (ys : List β), mapOpt f l = some ys → ∀ y ∈ ys, P y := by
  intro l
  induction l with
  | nil =>
    intro ys h
    rw [mapOpt] at h
    cases h
    simp
  | cons x xs ih =>
    intro ys h
    rw [mapOpt] at h
    cases hx : f x with
    | none => simp [hx] at h
    | some y =>
      simp only [hx, Option.bind_eq_bind, Option.some_bind] at h
      cases hrec : mapOpt f xs with
      | none => simp [hrec] at h
      | some zs =>
        simp only [hrec, Option.some_bind] at h
        cases h
        intro z hz
        rcases List.mem_cons.mp hz with hz | hz
        · subst hz
          exact hf x z hx
        · exact ih zs hrec z hz

theorem vectorNew_bind (c : VecClass) (f : Raw → Option ScalTag) (v : Raw) :
    vectorNew c f v =
      (pyList v).bind fun l => (mapOpt f l).map (TagVal.vec c) := by
  cases v <;> simp [vectorNew, seqAssert, pyList, isinstanceList,
    Option.bind_eq_bind, Option.map_eq_bind, Function.comp]

theorem vectorNew_class (c : VecClass) (f : Raw → Option ScalTag) (v : Raw)
    (out : TagVal) (hf : ∀ r t, f r = some t → scalClass t = elemClass c) :
    vectorNew c f v = some out →
      tagValClass out = .vecC c ∧ elemsOk out = true := by
  intro h
  rw [vectorNew_bind] at h
  cases hl : pyList v with
  | none => simp [hl] at h
  | some l =>
    simp only [hl, Option.some_bind] at h
    cases hm : mapOpt f l with
    | none => simp [hm] at h
    | some elems =>
      simp only [hm, Option.map_some'] at h
      cases h
      refine ⟨rfl, ?_⟩
      simp only [elemsOk, List.all_eq_true, decide_eq_true_eq]
      intro x hx
      exact mapOpt_mem hf l elems hm x hx

theorem coerceArg_class (tc : TagClass) (raw : Raw) (v : TagVal)
    (h : coerceArg tc raw = some v) :
    tagValClass v = tc ∧ elemsOk v = true ∧
      (tc = .structC → ∃ s, structFromStr raw = some s ∧
        v = .scal (.structT s)) := by
  cases tc with
  | boolC =>
    rcases Option.map_eq_some'.mp h with ⟨b, hb, rfl⟩
    exact ⟨rfl, rfl, by intro hc; cases hc⟩
  | u8C =>
    rcases Option.map_eq_some'.mp h with ⟨n, hn, rfl⟩
    exact ⟨rfl, rfl, by intro hc; cases hc⟩
  | u64C =>
    rcases Option.map_eq_some'.mp h with ⟨n, hn, rfl⟩
    exact ⟨rfl, rfl, by intro hc; cases hc⟩
  | u128C =>
    rcases Option.map_eq_some'.mp h with ⟨n, hn, rfl⟩
    exact ⟨rfl, rfl, by intro hc; cases hc⟩
  | addrC =>
    rcases Option.map_eq_some'.mp h with ⟨a, ha, rfl⟩
    exact ⟨rfl, rfl, by intro hc; cases hc⟩
  | structC =>
    rcases Option.map_eq_some'.mp h with ⟨s, hs, rfl⟩
    exact ⟨rfl, rfl, fun _ => ⟨s, hs, rfl⟩⟩
  | vecC c =>
    have hcls : tagValClass v = .vecC c ∧ elemsOk v = true := by
      cases c
      · exact vectorNew_class _ _ _ _
          (by intro r t ht; rcases Option.map_eq_some'.mp ht with ⟨b, hb, rfl⟩; rfl) h
      · exact vectorNew_class _ _ _ _
          (by intro r t ht; rcases Option.map_eq_some'.mp ht with ⟨n, hn, rfl⟩; rfl) h
      · exact vectorNew_class _ _ _ _
          (by intro r t ht; rcases Option.map_eq_some'.mp ht with ⟨n, hn, rfl⟩; rfl) h
      · exact vectorNew_class _ _ _ _
          (by intro r t ht; rcases Option.map_eq_some'.mp ht with ⟨n, hn, rfl⟩; rfl) h
      · exact vectorNew_class _ _ _ _
          (by intro r t ht; rcases Option.map_eq_some'.mp ht with ⟨a, ha, rfl⟩; rfl) h
      · exact vectorNew_class _ _ _ _
          (by intro r t ht; rcases Option.map_eq_some'.mp ht with ⟨s, hs, rfl⟩; rfl) h
    exact ⟨hcls.1, hcls.2, by intro hc; cases hc⟩

/-- C5: whenever a binder call passes its checks and every coercion
succeeds, the bound-argument sequence carries the descriptor's arguments in
declaration order, each bound value's runtime variant is exactly its
descriptor's declared class (vector element classes included), and each
value came from coercing one raw value — via `StructTag.from_str` exactly
for `StructTag`-classed slots. -/
theorem c5_bound_arguments_typed_and_ordered (abi : EntryFunctionABI)
    (args : List Raw) (kwargs : List (List Nat × Raw)) (tyArgs : List Raw)
    (out : List BoundArg)
    (h : AptosPackage.submit_bcs_transaction abi args kwargs tyArgs = .ok out) :
    out.map BoundArg.abi = abi.args ∧
    (∀ b ∈ out, tagValClass b.value = b.abi.type_tag ∧ elemsOk b.value = true) ∧
    (∀ b ∈ out, ∃ raw, coerceArg b.abi.type_tag raw = some b.value ∧
      (b.abi.type_tag = .structC → ∃ s, structFromStr raw = some s ∧
        b.value = .scal (.structT s))) := by
  rw [AptosPackage.submit_bcs_transaction] at h
  by_cases h1 : tyArgsCheck abi.ty_args tyArgs
  · rw [if_neg (by simp [h1])] at h
    by_cases h2 : args.length = abi.args.length ∨ kwargs.length = abi.args.length
    · rw [if_neg (by simp [h2])] at h
      have hmain : out.map BoundArg.abi = abi.args ∧
          ∀ b ∈ out, ∃ raw, coerceArg b.abi.type_tag raw = some b.value := by
        by_cases h3 : kwargs.length ≠ 0
        · rw [if_pos h3] at h
          obtain ⟨hmap, hmem⟩ := bindNamed_ok abi.args kwargs out h
          exact ⟨hmap, fun b hb => by
            obtain ⟨raw, _, hco⟩ := hmem b hb
            exact ⟨raw, hco⟩⟩
        · rw [if_neg h3] at h
          exact bindPos_ok args abi.args 0 out h
      refine ⟨hmain.1, ?_, ?_⟩
      · intro b hb
        obtain ⟨raw, hco⟩ := hmain.2 b hb
        obtain ⟨hcl, hel, _⟩ := coerceArg_class _ _ _ hco
        exact ⟨hcl, hel⟩
      · intro b hb
        obtain ⟨raw, hco⟩ := hmain.2 b hb
        exact ⟨raw, hco, fun hsc => (coerceArg_class _ _ _ hco).2.2 hsc⟩
    · rw [if_pos (by simp [h2])] at h
      exact Except.noConfusion h
  · rw [if_pos (by simp [h1])] at h
    exact Except.noConfusion h

/-- A three-argument descriptor: a boolean, a vector of u8, a struct tag. -/
def abiW : EntryFunctionABI :=
  ⟨[102], ⟨List.replicate 32 0, [109]⟩, [], [],
   [⟨[97], .boolC⟩, ⟨[98], .vecC .vU8⟩, ⟨[99], .structC⟩]⟩

/-- A named-form raw-argument mapping for `abiW`. -/
def kwargsW : List (List Nat × Raw) :=
  [([97], Raw.bool true), ([98], Raw.list [Raw.int 1, Raw.int 255]),
   ([99], Raw.str "0x1::coin::Coin")]

/-- The bound arguments the binder produces for `abiW` and `kwargsW`. -/
def outW : List BoundArg :=
  [⟨.scal (.boolT true), ⟨[97], .boolC⟩⟩,
   ⟨.vec .vU8 [.u8T 1, .u8T 255], ⟨[98], .vecC .vU8⟩⟩,
   ⟨.scal (.structT ⟨['0', 'x', '1'], ['c', 'o', 'i', 'n'], ['C', 'o', 'i', 'n']⟩),
    ⟨[99], .structC⟩⟩]

theorem c5_bound_arguments_witness :
    outW.map BoundArg.abi = abiW.args ∧
    (∀ b ∈ outW, tagValClass b.value = b.abi.type_tag ∧ elemsOk b.value = true) ∧
    (∀ b ∈ outW, ∃ raw, coerceArg b.abi.type_tag raw = some b.value ∧
      (b.abi.type_tag = .structC → ∃ s, structFromStr raw = some s ∧
        b.value = .scal (.structT s))) :=
  c5_bound_arguments_typed_and_ordered abiW [] kwargsW [] outW (by rfl)

/-- C2 (amended): before any coercion the binder checks
`len(ty_args) == len(abi.ty_args)` and that the positional count *or* the
named count equals the descriptor's argument count — not that exactly one
form is supplied.  A call supplying both forms passes whenever either count
matches and is bound from the named form whenever any named values are
present. -/
theorem c2_precondition_checks (abi : EntryFunctionABI) (args : List Raw)
    (kwargs : List (List Nat × Raw)) (tyArgs : List Raw) :
    (AptosPackage.submit_bcs_transaction abi args kwargs tyArgs
        = .error .tyArgsError ↔ ¬ abi.ty_args.length = tyArgs.length) ∧
    (AptosPackage.submit_bcs_transaction abi args kwargs tyArgs
        = .error .argsError ↔
      (abi.ty_args.length = tyArgs.length ∧
        ¬ args.length = abi.args.length ∧ ¬ kwargs.length = abi.args.length)) ∧
    (abi.ty_args.length = tyArgs.length → kwargs.length = abi.args.length →
      kwargs.length ≠ 0 →
      AptosPackage.submit_bcs_transaction abi args kwargs tyArgs
        = bindNamed abi.args kwargs) := by
  have hty : tyArgsCheck abi.ty_args tyArgs
      = (abi.ty_args.length == tyArgs.length) := rfl
  rw [AptosPackage.submit_bcs_transaction]
  by_cases h1 : abi.ty_args.length = tyArgs.length
  · rw [if_neg (by simp [hty, h1])]
    by_cases h2 : args.length = abi.args.length ∨ kwargs.length = abi.args.length
    · rw [if_neg (by simp [h2])]
      by_cases h3 : kwargs.length ≠ 0
      · rw [if_pos h3]
        refine ⟨?_, ?_, fun _ _ _ => rfl⟩
        · constructor
          · intro h
            have := bindNamed_err abi.args kwargs _ h
            cases this
          · intro h
            exact absurd h1 h
        · constructor
          · intro h
            have := bindNamed_err abi.args kwargs _ h
            cases this
          · rintro ⟨-, ha, hk⟩
            exact absurd h2 (by simp [ha, hk])
      · rw [if_neg h3]
        refine ⟨?_, ?_, ?_⟩
        · constructor
          · intro h
            have := bindPos_err args abi.args 0 _ h
            cases this
          · intro h
            exact absurd h1 h
        · constructor
          · intro h
            have := bindPos_err args abi.args 0 _ h
            cases this
          · rintro ⟨-, ha, hk⟩
            exact absurd h2 (by simp [ha, hk])
        · intro _ hk hk0
          exact absurd hk0 h3
    · rw [if_pos (by simp [h2])]
      push_neg at h2
      refine ⟨?_, ?_, ?_⟩
      · constructor
        · intro h
          injection h with h4
          cases h4
        · intro h
          exact absurd h1 h
      · exact ⟨fun _ => ⟨h1, h2.1, h2.2⟩, fun _ => rfl⟩
      · intro _ hk _
        exact absurd hk h2.2
  · rw [if_pos (by simp [hty, h1])]
    refine ⟨⟨fun _ => h1, fun _ => rfl⟩, ?_, ?_⟩
    · constructor
      · intro h
        injection h with h4
        cases h4
      · rintro ⟨hl, -⟩
        exact absurd hl h1
    · intro hl _ _
      exact absurd hl h1

/-- A one-argument descriptor used by the C2 counterexample. -/
def abiOne : EntryFunctionABI :=
  ⟨[102], ⟨List.replicate 32 0, [109]⟩, [], [], [⟨[97], .boolC⟩]⟩

/-- C2 as frozen is false: a call supplying *both* a positional value and a
full named mapping does not fail — it passes the asserts and coerces the
named value. -/
theorem c2_both_forms_accepted_counterexample :
    AptosPackage.submit_bcs_transaction abiOne [Raw.bool true]
        [([97], Raw.bool false)] []
      = .ok [⟨.scal (.boolT false), ⟨[97], .boolC⟩⟩] := by rfl

theorem c2_precondition_checks_witness :
    AptosPackage.submit_bcs_transaction abiOne [] [([97], Raw.bool false)] []
      = bindNamed abiOne.args [([97], Raw.bool false)] :=
  (c2_precondition_checks abiOne [] [([97], Raw.bool false)] []).2.2
    (by rfl) (by rfl) (by decide)

theorem bindNamed_missing (pre : List ArgumentABI) (a : ArgumentABI)
    (post : List ArgumentABI) (kwargs : List (List Nat × Raw))
    (hpre : pre.all
      (fun b => ((lookupKw b.name kwargs).bind (coerceArg b.type_tag)).isSome)
        = true)
    (ha : lookupKw a.name kwargs = none) :
    bindNamed (pre ++ a :: post) kwargs = .error (.paramNotFound a.name) := by
  induction pre with
  | nil =>
    rw [List.nil_append, bindNamed, ha]
  | cons b pre ih =>
    rw [List.all_cons, Bool.and_eq_true] at hpre
    obtain ⟨hb, hpre⟩ := hpre
    rw [List.cons_append, bindNamed]
    cases hlk : lookupKw b.name kwargs with
    | none => simp [hlk] at hb
    | some raw =>
      rw [hlk] at hb
      cases hc : coerceArg b.type_tag raw with
      | none => simp [hc] at hb
      | some v =>
        simp only [hlk]
        have hcs : coerceSlot b raw = .ok ⟨v, b⟩ := by
          simp [coerceSlot, hc, truthy]
        simp only [hcs, ih hpre]

/-- C3 (amended): a named-form call omitting a required descriptor
parameter fails with the error naming the absent parameter only when the
mapping's cardinality still equals the descriptor's argument count (a wrong
key stands in for the missing one) and the earlier parameters are present
and coercible; when the cardinality differs — as it does when a key is
simply left out — the plain arity assert fails first. -/
theorem c3_missing_named_parameter (abi : EntryFunctionABI)
    (pre : List ArgumentABI) (a : ArgumentABI) (post : List ArgumentABI)
    (args : List Raw) (kwargs : List (List Nat × Raw)) (tyArgs : List Raw)
    (hargs : abi.args = pre ++ a :: post)
    (h1 : abi.ty_args.length = tyArgs.length)
    (h2 : kwargs.length = abi.args.length)
    (hpre : pre.all
      (fun b => ((lookupKw b.name kwargs).bind (coerceArg b.type_tag)).isSome)
        = true)
    (ha : lookupKw a.name kwargs = none) :
    AptosPackage.submit_bcs_transaction abi args kwargs tyArgs
      = .error (.paramNotFound a.name) := by
  have hty : tyArgsCheck abi.ty_args tyArgs
      = (abi.ty_args.length == tyArgs.length) := rfl
  have hk0 : kwargs.length ≠ 0 := by
    rw [h2, hargs]
    simp
  rw [AptosPackage.submit_bcs_transaction, if_neg (by simp [hty, h1]),
    if_neg (by simp [h2]), if_pos hk0, hargs]
  exact bindNamed_missing pre a post kwargs hpre ha

/-- A two-argument descriptor used by the C3 theorems. -/
def abiTwo : EntryFunctionABI :=
  ⟨[102], ⟨List.replicate 32 0, [109]⟩, [], [],
   [⟨[97], .boolC⟩, ⟨[98], .boolC⟩]⟩

/-- C3 as frozen is false: a named call that simply omits one required key
(cardinality one short) fails with the plain arity assert, not with the
error naming the absent parameter. -/
theorem c3_omitted_key_arity_counterexample :
    AptosPackage.submit_bcs_transaction abiTwo [] [([97], Raw.bool true)] []
      = .error .argsError := by rfl

theorem c3_missing_named_parameter_witness :
    AptosPackage.submit_bcs_transaction abiTwo []
        [([97], Raw.bool true), ([99], Raw.bool false)] []
      = .error (.paramNotFound [98]) :=
  c3_missing_named_parameter abiTwo [⟨[97], .boolC⟩] ⟨[98], .boolC⟩ [] []
    [([97], Raw.bool true), ([99], Raw.bool false)] []
    (by rfl) (by rfl) (by rfl) (by rfl) (by rfl)

/-- Whether a binding outcome is the (intended) `Param ... not match`
assert message. -/
def notMatchErr : Except BindError (List BoundArg) → Bool
  | .error (.paramNotMatch _) => true
  | _ => false

theorem loopErr_not_notMatch (e : BindError) :
    loopErr e = true → notMatchErr (.error e) = false := by
  cases e <;> simp [loopErr, notMatchErr]

/-- A one-u8-argument descriptor used by the C4 theorem. -/
def abiU8 : EntryFunctionABI :=
  ⟨[102], ⟨List.replicate 32 0, [109]⟩, [], [], [⟨[97], .u8C⟩]⟩

/-- C4: a failing coercion surfaces as the raised exception of the tag
constructor itself — it carries the offending raw value but names neither
the argument nor the expected type — and the `Param ... not match` assert
that would name them is unreachable on every input, because a tag
constructor either raises or returns a truthy object. -/
theorem c4_coercion_error_is_opaque :
    AptosPackage.submit_bcs_transaction abiU8 [] [([97], Raw.int 300)] []
        = .error (.coercionRaise (Raw.int 300)) ∧
    ∀ (abi : EntryFunctionABI) (args : List Raw)
      (kwargs : List (List Nat × Raw)) (tyArgs : List Raw),
      notMatchErr (AptosPackage.submit_bcs_transaction abi args kwargs tyArgs)
        = false := by
  refine ⟨by rfl, ?_⟩
  intro abi args kwargs tyArgs
  rw [AptosPackage.submit_bcs_transaction]
  by_cases h1 : tyArgsCheck abi.ty_args tyArgs
  · rw [if_neg (by simp [h1])]
    by_cases h2 : args.length = abi.args.length ∨ kwargs.length = abi.args.length
    · rw [if_neg (by simp [h2])]
      by_cases h3 : kwargs.length ≠ 0
      · rw [if_pos h3]
        cases hr : bindNamed abi.args kwargs with
        | error e => exact loopErr_not_notMatch e (bindNamed_err abi.args kwargs e hr)
        | ok bs => rfl
      · rw [if_neg h3]
        cases hr : bindPos args abi.args 0 with
        | error e => exact loopErr_not_notMatch e (bindPos_err args abi.args 0 e hr)
        | ok bs => rfl
    · rw [if_pos (by simp [h2])]
      rfl
  · rw [if_pos (by simp [h1])]
    rfl

end AptosBrownie
